import Mathlib

/-!
Verification of the retrieval-augmented answering pipeline of the
Tunisia archaeological-sites chatbot (sources: `rag.py`, `ingest.py`).

Embedding conventions:
- Python strings are modelled as `Str := List Char`; Python `str.split()`,
  `str.strip()`, `" ".join`, slicing and regex substitution are translated
  into executable Lean functions below.
- Python `\s` is modelled by `pyIsSpace` covering the ASCII whitespace
  characters; exotic Unicode whitespace is outside the model.
- Floats (vector-store distances) are modelled as `ℚ`; Python's
  `round(x, 3)` is modelled as rounding `x * 1000` to an integer
  (`round3`).  Python rounds halves to even while `round` rounds halves
  up; no statement below depends on the behaviour at a half.
- The ChromaDB collection and the Ollama HTTP service are external
  collaborators; they enter the model as explicit data
  (`QueryResults`, `GenOutcome`) and as oracle functions passed to the
  orchestrator, so "component X is never called" is provable as
  "the result does not depend on the oracle for X".
-/

set_option maxRecDepth 4000

namespace TunisiaChatbot

/-- Python strings, modelled as lists of characters. -/
abbrev Str := List Char

/-- Python whitespace (`\s`, ASCII range): space, tab, newline, carriage
return, vertical tab, form feed. -/
def pyIsSpace (c : Char) : Bool :=
  c == ' ' || c == '\t' || c == '\n' || c == '\r' || c == '\x0b' || c == '\x0c'

/-- Helper for `pywordsAux`: flush the (reversed) pending word `acc` in
front of the already-computed word list `r`. -/
def emitAcc (acc : Str) (r : List Str) : List Str :=
  if acc = [] then r else acc.reverse :: r

/-- Accumulator worker for `pywords`; `acc` holds the current word,
reversed. -/
def pywordsAux : Str → Str → List Str
  | [], acc => emitAcc acc []
  | c :: cs, acc =>
    if pyIsSpace c then emitAcc acc (pywordsAux cs []) else pywordsAux cs (c :: acc)

/-- Python `str.split()` with no argument: split on runs of whitespace,
dropping empty pieces. -/
def pywords (l : Str) : List Str := pywordsAux l []

/-- Python `str.strip()`: drop whitespace from both ends. -/
def pyStrip (l : Str) : Str :=
  ((l.dropWhile pyIsSpace).reverse.dropWhile pyIsSpace).reverse

/-- Python slice `l[-n:]` for `n > 0`: the last `n` elements
(all of them when the list is shorter). -/
def lastN {α : Type} (n : ℕ) (l : List α) : List α := l.drop (l.length - n)

/-- Python `sep.join(pieces)`. -/
def joinSep (sep : Str) : List Str → Str
  | [] => []
  | [s] => s
  | s :: rest => s ++ sep ++ joinSep sep rest

/-- Python `" ".join(pieces)`. -/
def joinSpace : List Str → Str := joinSep [' ']

-- ==================== CONFIGURATION (rag.py / ingest.py) ====================

/-- Configuration constant `MAX_INPUT_LENGTH` from `rag.py`. -/
def MAX_INPUT_LENGTH : ℕ := 500

/-- Configuration constant `MAX_HISTORY_MESSAGES` from `rag.py`. -/
def MAX_HISTORY_MESSAGES : ℕ := 6

/-- Configuration constant `CHUNK_WORD_TARGET` from `ingest.py`. -/
def CHUNK_WORD_TARGET : ℕ := 200

/-- Configuration constant `CHUNK_OVERLAP_WORDS` from `ingest.py`. -/
def CHUNK_OVERLAP_WORDS : ℕ := 30

/-- Configuration constant `MIN_CHUNK_WORDS` from `ingest.py`. -/
def MIN_CHUNK_WORDS : ℕ := 15

-- ==================== INPUT SANITIZATION (rag.py lines 73-82) ====================

/-- A Python value passed where a `str` is expected: `None`, an actual
string, or any non-string object (`sanitize_input` only distinguishes
these three cases). -/
inductive PyVal where
  | pnone
  | pstr (s : Str)
  | pother

/-- Worker for `collapseWS`; the flag records whether the previously
consumed character was part of a whitespace run already replaced by a
single space. -/
def collapseWSAux : Str → Bool → Str
  | [], _ => []
  | c :: cs, inRun =>
    if pyIsSpace c then
      if inRun then collapseWSAux cs true else ' ' :: collapseWSAux cs true
    else c :: collapseWSAux cs false

/-- Python `re.sub(r'\s+', ' ', l)`: replace every maximal run of
whitespace by a single space. -/
def collapseWS (l : Str) : Str := collapseWSAux l false

/-- Python `re.sub(r'\x00', '', l)`: remove NUL characters. -/
def removeNul (l : Str) : Str := l.filter (fun c => decide (c ≠ '\x00'))

/-- Model of `RAGChatbot.sanitize_input` (`rag.py` lines 73-82):
falsy or non-string input yields `""`; otherwise strip, truncate to
`MAX_INPUT_LENGTH`, remove NUL bytes, collapse whitespace runs. -/
def sanitize_input : PyVal → Str
  | .pnone => []
  | .pother => []
  | .pstr s =>
    if s = [] then []
    else collapseWS (removeNul ((pyStrip s).take MAX_INPUT_LENGTH))

-- ==================== LEMMAS ON collapseWS ====================

theorem collapseWSAux_length_le : ∀ (l : Str) (b : Bool), (collapseWSAux l b).length ≤ l.length := by
  intro l
  induction l with
  | nil => intro b; simp [collapseWSAux]
  | cons c cs ih =>
    intro b
    simp only [collapseWSAux]
    by_cases hc : pyIsSpace c = true
    · simp only [hc, if_true]
      cases b with
      | true => exact Nat.le_succ_of_le (ih true)
      | false => simpa using Nat.succ_le_succ (ih true)
    · simp only [hc]
      simpa using Nat.succ_le_succ (ih false)

theorem mem_collapseWSAux : ∀ (l : Str) (b : Bool) (c : Char),
    c ∈ collapseWSAux l b → c = ' ' ∨ c ∈ l := by
  intro l
  induction l with
  | nil => intro b c h; simp [collapseWSAux] at h
  | cons d ds ih =>
    intro b c h
    simp only [collapseWSAux] at h
    by_cases hd : pyIsSpace d = true
    · simp only [hd, if_true] at h
      cases b with
      | true =>
        rcases ih true c h with h' | h'
        · exact Or.inl h'
        · exact Or.inr (List.mem_cons_of_mem d h')
      | false =>
        rcases List.mem_cons.mp h with h' | h'
        · exact Or.inl h'
        · rcases ih true c h' with h'' | h''
          · exact Or.inl h''
          · exact Or.inr (List.mem_cons_of_mem d h'')
    · simp only [hd, if_false] at h
      rcases List.mem_cons.mp h with h' | h'
      · exact Or.inr (h' ▸ List.mem_cons_self d ds)
      · rcases ih false c h' with h'' | h''
        · exact Or.inl h''
        · exact Or.inr (List.mem_cons_of_mem d h'')

theorem collapseWSAux_ws_eq_space : ∀ (l : Str) (b : Bool) (c : Char),
    c ∈ collapseWSAux l b → pyIsSpace c = true → c = ' ' := by
  intro l
  induction l with
  | nil => intro b c h; simp [collapseWSAux] at h
  | cons d ds ih =>
    intro b c h hws
    simp only [collapseWSAux] at h
    by_cases hd : pyIsSpace d = true
    · simp only [hd, if_true] at h
      cases b with
      | true => exact ih true c h hws
      | false =>
        rcases List.mem_cons.mp h with h' | h'
        · exact h'
        · exact ih true c h' hws
    · simp only [hd, if_false] at h
      rcases List.mem_cons.mp h with h' | h'
      · exact absurd (h' ▸ hws) (by simpa using hd)
      · exact ih false c h' hws

theorem collapseWSAux_head_of_inRun : ∀ (l : Str) (c : Char),
    (collapseWSAux l true).head? = some c → pyIsSpace c = false := by
  intro l
  induction l with
  | nil => intro c h; simp [collapseWSAux] at h
  | cons d ds ih =>
    intro c h
    by_cases hd : pyIsSpace d = true
    · simp only [collapseWSAux, hd, if_true] at h
      exact ih c h
    · simp [collapseWSAux, hd] at h
      rw [← h]
      simpa using hd

theorem collapseWSAux_no_adjacent_ws : ∀ (l : Str) (b : Bool),
    List.Chain' (fun a c => ¬(pyIsSpace a = true ∧ pyIsSpace c = true)) (collapseWSAux l b) := by
  intro l
  induction l with
  | nil => intro b; simp [collapseWSAux]
  | cons d ds ih =>
    intro b
    by_cases hd : pyIsSpace d = true
    · cases b with
      | true =>
        have heq : collapseWSAux (d :: ds) true = collapseWSAux ds true := by
          simp [collapseWSAux, hd]
        rw [heq]
        exact ih true
      | false =>
        have heq : collapseWSAux (d :: ds) false = ' ' :: collapseWSAux ds true := by
          simp [collapseWSAux, hd]
        rw [heq, List.chain'_cons']
        refine ⟨?_, ih true⟩
        intro y hy hcontra
        have := collapseWSAux_head_of_inRun ds y hy
        rw [this] at hcontra
        exact absurd hcontra.2 (by simp)
    · have heq : collapseWSAux (d :: ds) b = d :: collapseWSAux ds false := by
        simp [collapseWSAux, hd]
      rw [heq, List.chain'_cons']
      refine ⟨?_, ih false⟩
      intro y _ hcontra
      exact hd hcontra.1

-- ==================== CLAIM C9 ====================

/-- C9: for every string input, `sanitize_input` produces at most
`MAX_INPUT_LENGTH` characters, contains no NUL byte, contains no two
adjacent whitespace characters (each whitespace run of the input is
collapsed), and every whitespace character that remains is a single
space. -/
theorem C9_sanitize_shape (s : Str) :
    (sanitize_input (.pstr s)).length ≤ MAX_INPUT_LENGTH ∧
    (∀ c ∈ sanitize_input (.pstr s), c ≠ '\x00') ∧
    List.Chain' (fun a c => ¬(pyIsSpace a = true ∧ pyIsSpace c = true))
      (sanitize_input (.pstr s)) ∧
    (∀ c ∈ sanitize_input (.pstr s), pyIsSpace c = true → c = ' ') := by
  by_cases hs : s = []
  · subst hs
    refine ⟨by simp [sanitize_input], ?_, ?_, ?_⟩ <;> simp [sanitize_input]
  · have hdef : sanitize_input (.pstr s)
        = collapseWS (removeNul ((pyStrip s).take MAX_INPUT_LENGTH)) := by
      simp [sanitize_input, hs]
    refine ⟨?_, ?_, ?_, ?_⟩
    · rw [hdef]
      calc (collapseWS (removeNul ((pyStrip s).take MAX_INPUT_LENGTH))).length
          ≤ (removeNul ((pyStrip s).take MAX_INPUT_LENGTH)).length :=
            collapseWSAux_length_le _ false
        _ ≤ ((pyStrip s).take MAX_INPUT_LENGTH).length :=
            List.length_filter_le _ _
        _ ≤ MAX_INPUT_LENGTH := by
            rw [List.length_take]; exact min_le_left _ _
    · intro c hc
      rw [hdef] at hc
      rcases mem_collapseWSAux _ false c hc with h' | h'
      · subst h'; decide
      · have := (List.mem_filter.mp h').2
        exact of_decide_eq_true this
    · rw [hdef]
      exact collapseWSAux_no_adjacent_ws _ false
    · intro c hc
      rw [hdef] at hc
      exact collapseWSAux_ws_eq_space _ false c hc

-- ==================== LEMMAS ON pywords ====================

theorem emitAcc_append (acc : Str) (r r' : List Str) :
    emitAcc acc r ++ r' = emitAcc acc (r ++ r') := by
  unfold emitAcc; split <;> simp

theorem mem_emitAcc {w : Str} {acc : Str} {r : List Str} (h : w ∈ emitAcc acc r) :
    (w = acc.reverse ∧ acc ≠ []) ∨ w ∈ r := by
  unfold emitAcc at h
  split at h
  · exact Or.inr h
  · rcases List.mem_cons.mp h with h' | h'
    · exact Or.inl ⟨h', by assumption⟩
    · exact Or.inr h'

theorem pywordsAux_ws_cons (c : Char) (cs acc : Str) (hc : pyIsSpace c = true) :
    pywordsAux (c :: cs) acc = emitAcc acc (pywordsAux cs []) := by
  simp [pywordsAux, hc]

theorem pywordsAux_nws_cons (c : Char) (cs acc : Str) (hc : ¬ pyIsSpace c = true) :
    pywordsAux (c :: cs) acc = pywordsAux cs (c :: acc) := by
  simp [pywordsAux, hc]

theorem pywordsAux_append_space : ∀ (a : Str), ∀ (acc b : Str),
    pywordsAux (a ++ ' ' :: b) acc = pywordsAux a acc ++ pywordsAux b [] := by
  intro a
  induction a with
  | nil =>
    intro acc b
    rw [List.nil_append, pywordsAux_ws_cons ' ' b acc (by decide)]
    show emitAcc acc (pywordsAux b []) = emitAcc acc [] ++ pywordsAux b []
    rw [emitAcc_append, List.nil_append]
  | cons c a' ih =>
    intro acc b
    rw [List.cons_append]
    by_cases hc : pyIsSpace c = true
    · rw [pywordsAux_ws_cons c _ acc hc, pywordsAux_ws_cons c a' acc hc, ih [] b,
        emitAcc_append]
    · rw [pywordsAux_nws_cons c _ acc hc, pywordsAux_nws_cons c a' acc hc, ih (c :: acc) b]

theorem pywordsAux_all_ws : ∀ (l : Str), (∀ c ∈ l, pyIsSpace c = true) →
    ∀ acc, pywordsAux l acc = emitAcc acc [] := by
  intro l
  induction l with
  | nil => intro _ acc; rfl
  | cons c cs ih =>
    intro h acc
    rw [pywordsAux_ws_cons c cs acc (h c (List.mem_cons_self c cs)),
      ih (fun d hd => h d (List.mem_cons_of_mem c hd)) []]
    rfl

theorem pywordsAux_append_ws : ∀ (a : Str), ∀ (ws : Str), (∀ c ∈ ws, pyIsSpace c = true) →
    ∀ acc, pywordsAux (a ++ ws) acc = pywordsAux a acc := by
  intro a
  induction a with
  | nil =>
    intro ws hws acc
    rw [List.nil_append, pywordsAux_all_ws ws hws acc]
    rfl
  | cons c a' ih =>
    intro ws hws acc
    rw [List.cons_append]
    by_cases hc : pyIsSpace c = true
    · rw [pywordsAux_ws_cons c _ acc hc, pywordsAux_ws_cons c a' acc hc, ih ws hws []]
    · rw [pywordsAux_nws_cons c _ acc hc, pywordsAux_nws_cons c a' acc hc, ih ws hws (c :: acc)]

theorem pywords_dropWhile_ws : ∀ (l : Str),
    pywordsAux (l.dropWhile pyIsSpace) [] = pywordsAux l [] := by
  intro l
  induction l with
  | nil => rfl
  | cons c cs ih =>
    by_cases hc : pyIsSpace c = true
    · rw [List.dropWhile_cons_of_pos hc, ih, pywordsAux_ws_cons c cs [] hc]
      rfl
    · rw [List.dropWhile_cons_of_neg hc]

theorem pywords_strip (l : Str) : pywords (pyStrip l) = pywords l := by
  have hsplit : (l.dropWhile pyIsSpace).reverse.takeWhile pyIsSpace ++
      (l.dropWhile pyIsSpace).reverse.dropWhile pyIsSpace = (l.dropWhile pyIsSpace).reverse :=
    List.takeWhile_append_dropWhile pyIsSpace (l.dropWhile pyIsSpace).reverse
  have hdecomp : l.dropWhile pyIsSpace =
      pyStrip l ++ ((l.dropWhile pyIsSpace).reverse.takeWhile pyIsSpace).reverse := by
    have := congrArg List.reverse hsplit
    rw [List.reverse_append, List.reverse_reverse] at this
    exact this.symm
  have hws : ∀ c ∈ ((l.dropWhile pyIsSpace).reverse.takeWhile pyIsSpace).reverse,
      pyIsSpace c = true := by
    intro c hc
    exact List.mem_takeWhile_imp (List.mem_reverse.mp hc)
  show pywordsAux (pyStrip l) [] = pywordsAux l []
  rw [← pywords_dropWhile_ws l, hdecomp, pywordsAux_append_ws (pyStrip l) _ hws []]

theorem pywordsAux_wf : ∀ (l : Str), ∀ (acc : Str), (∀ c ∈ acc, pyIsSpace c = false) →
    ∀ w ∈ pywordsAux l acc, w ≠ [] ∧ ∀ c ∈ w, pyIsSpace c = false := by
  intro l
  induction l with
  | nil =>
    intro acc hacc w hw
    rcases mem_emitAcc hw with ⟨rfl, hne⟩ | h'
    · exact ⟨by simpa using hne, fun c hc => hacc c (List.mem_reverse.mp hc)⟩
    · simp at h'
  | cons c cs ih =>
    intro acc hacc w hw
    by_cases hc : pyIsSpace c = true
    · rw [pywordsAux_ws_cons c cs acc hc] at hw
      rcases mem_emitAcc hw with ⟨rfl, hne⟩ | h'
      · exact ⟨by simpa using hne, fun d hd => hacc d (List.mem_reverse.mp hd)⟩
      · exact ih [] (by simp) w h'
    · rw [pywordsAux_nws_cons c cs acc hc] at hw
      refine ih (c :: acc) ?_ w hw
      intro d hd
      rcases List.mem_cons.mp hd with rfl | hd'
      · simpa using hc
      · exact hacc d hd'

theorem pywords_wf (l : Str) : ∀ w ∈ pywords l, w ≠ [] ∧ ∀ c ∈ w, pyIsSpace c = false :=
  pywordsAux_wf l [] (by simp)

theorem pywordsAux_all_nws : ∀ (w : Str), ∀ (acc : Str), (∀ c ∈ w, pyIsSpace c = false) →
    pywordsAux w acc = emitAcc (w.reverse ++ acc) [] := by
  intro w
  induction w with
  | nil => intro acc _; rfl
  | cons c cs ih =>
    intro acc h
    have hc : ¬ pyIsSpace c = true := by
      have := h c (List.mem_cons_self c cs)
      simp [this]
    rw [pywordsAux_nws_cons c cs acc hc,
      ih (c :: acc) (fun d hd => h d (List.mem_cons_of_mem c hd))]
    simp

theorem pywords_of_word (w : Str) (hne : w ≠ []) (hnws : ∀ c ∈ w, pyIsSpace c = false) :
    pywords w = [w] := by
  show pywordsAux w [] = [w]
  rw [pywordsAux_all_nws w [] hnws]
  unfold emitAcc
  simp [hne]

theorem pywords_joinSpace : ∀ (l : List Str), pywords (joinSpace l) = (l.map pywords).flatten := by
  intro l
  induction l with
  | nil => simp [joinSpace, joinSep, pywords, pywordsAux, emitAcc]
  | cons s r ih =>
    cases r with
    | nil => simp [joinSpace, joinSep]
    | cons s' r' =>
      show pywords (s ++ [' '] ++ joinSep [' '] (s' :: r')) = _
      rw [List.append_assoc, List.singleton_append]
      show pywordsAux (s ++ ' ' :: joinSep [' '] (s' :: r')) [] = _
      rw [pywordsAux_append_space s [] (joinSep [' '] (s' :: r'))]
      have ih' : pywordsAux (joinSep [' '] (s' :: r')) [] =
          (List.map pywords (s' :: r')).flatten := ih
      rw [ih']
      simp only [List.map_cons, List.flatten_cons]
      rfl

theorem pywords_joinSpace_words (ws : List Str)
    (h : ∀ w ∈ ws, w ≠ [] ∧ ∀ c ∈ w, pyIsSpace c = false) :
    pywords (joinSpace ws) = ws := by
  rw [pywords_joinSpace]
  induction ws with
  | nil => rfl
  | cons w r ih =>
    simp only [List.map_cons, List.flatten_cons]
    rw [pywords_of_word w (h w (List.mem_cons_self w r)).1 (h w (List.mem_cons_self w r)).2,
      ih (fun v hv => h v (List.mem_cons_of_mem w hv))]
    rfl

theorem pywordsAux_ne_nil : ∀ (l : Str), ∀ (acc : Str), acc ≠ [] → pywordsAux l acc ≠ [] := by
  intro l
  induction l with
  | nil =>
    intro acc hacc
    show emitAcc acc [] ≠ []
    unfold emitAcc
    simp [hacc]
  | cons c cs ih =>
    intro acc hacc
    by_cases hc : pyIsSpace c = true
    · rw [pywordsAux_ws_cons c cs acc hc]
      unfold emitAcc
      simp [hacc]
    · rw [pywordsAux_nws_cons c cs acc hc]
      exact ih (c :: acc) (by simp)

theorem all_ws_of_pywords_eq_nil : ∀ (l : Str), pywords l = [] → ∀ c ∈ l, pyIsSpace c = true := by
  intro l
  induction l with
  | nil => intro _ c hc; simp at hc
  | cons c cs ih =>
    intro h d hd
    by_cases hc : pyIsSpace c = true
    · have h' : pywords cs = [] := by
        have := h
        show pywordsAux cs [] = []
        rw [pywords, pywordsAux_ws_cons c cs [] hc] at this
        simpa [emitAcc] using this
      rcases List.mem_cons.mp hd with rfl | hd'
      · exact hc
      · exact ih h' d hd'
    · exfalso
      rw [pywords, pywordsAux_nws_cons c cs [] hc] at h
      exact pywordsAux_ne_nil cs [c] (by simp) h

theorem pywords_strip_ne_nil (s : Str) (h : pyStrip s ≠ []) : pywords (pyStrip s) ≠ [] := by
  intro hnil
  rw [pywords_strip] at hnil
  have hall := all_ws_of_pywords_eq_nil s hnil
  have hdrop : s.dropWhile pyIsSpace = [] :=
    List.dropWhile_eq_nil_iff.mpr (fun c hc => hall c hc)
  apply h
  simp [pyStrip, hdrop]

-- ==================== CHUNKER (ingest.py lines 30, 48-98) ====================

/-- Sentence-ending punctuation class of the chunker's splitting regex
`(?<=[.!?...])\s+` in `ingest.py` line 30. -/
def isSentEnd (c : Char) : Bool :=
  c == '.' || c == '!' || c == '?' || c == '।' || c == '。' || c == '!' || c == '?'

/-- State machine for `re.split(r'(?<=[.!?...])\s+', text)`: a separator is a
maximal whitespace run whose first character is preceded by sentence-ending
punctuation.  `prev` is the previously consumed character, `inSep` records
whether we are inside a separator run, `acc` the current segment reversed. -/
def splitAux : Str → Char → Bool → Str → List Str
  | [], _, _, acc => [acc.reverse]
  | c :: cs, prev, inSep, acc =>
    if inSep then
      if pyIsSpace c then splitAux cs c true acc
      else splitAux cs c false [c]
    else if pyIsSpace c && isSentEnd prev then
      acc.reverse :: splitAux cs c true []
    else splitAux cs c false (c :: acc)

/-- Sentence splitting used by `text_to_chunks`.  The initial `prev`
character is arbitrary non-punctuation: a lookbehind cannot match before
the first character. -/
def sentenceSplit (text : Str) : List Str := splitAux text 'A' false []

/-- Loop state of `text_to_chunks`: emitted chunks, the sentences of the
chunk under construction (`current_chunk`), and the running word count
(`current_word_count`). -/
structure ChunkState where
  chunks : List Str
  current : List Str
  cwc : ℕ

/-- One iteration of the sentence loop of `text_to_chunks`
(`ingest.py` lines 59-87). -/
def stepSentence (target overlap : ℕ) (st : ChunkState) (rawSentence : Str) : ChunkState :=
  let sentence := pyStrip rawSentence
  if sentence = [] then st
  else
    let wordCount := (pywords sentence).length
    if st.cwc + wordCount ≤ target ∨ st.current = [] then
      ⟨st.chunks, st.current ++ [sentence], st.cwc + wordCount⟩
    else
      let chunkText := pyStrip (joinSpace st.current)
      let chunks' := if chunkText = [] then st.chunks else st.chunks ++ [chunkText]
      if 0 < overlap then
        let allWords := pywords (joinSpace st.current)
        let overlapWords := if overlap ≤ allWords.length then lastN overlap allWords else allWords
        ⟨chunks', [joinSpace overlapWords, sentence], overlapWords.length + wordCount⟩
      else
        ⟨chunks', [sentence], wordCount⟩

/-- The loop of `text_to_chunks` over all sentences. -/
def chunkFoldState (text : Str) (target overlap : ℕ) : ChunkState :=
  (sentenceSplit text).foldl (stepSentence target overlap) ⟨[], [], 0⟩

/-- Emission of the remaining chunk after the loop
(`ingest.py` lines 90-93). -/
def closeState (st : ChunkState) : List Str :=
  if st.current = [] then st.chunks
  else if pyStrip (joinSpace st.current) = [] then st.chunks
  else st.chunks ++ [pyStrip (joinSpace st.current)]

/-- The chunk sequence of `text_to_chunks` before the final
short-chunk filter. -/
def rawChunks (text : Str) (target overlap : ℕ) : List Str :=
  closeState (chunkFoldState text target overlap)

/-- Model of `text_to_chunks` (`ingest.py` lines 48-98): sentence split,
greedy accumulation with seeded overlap, then removal of chunks shorter
than `MIN_CHUNK_WORDS` words. -/
def text_to_chunks (text : Str) (target overlap : ℕ) : List Str :=
  (rawChunks text target overlap).filter (fun c => decide (MIN_CHUNK_WORDS ≤ (pywords c).length))

/-- Indexer per-document chunk list (`ingest.py` lines 221-225): if the
chunker yields nothing, fall back to the whole enriched text as a single
chunk. -/
def indexDocChunks (fullText : Str) : List Str :=
  let cs := text_to_chunks fullText CHUNK_WORD_TARGET CHUNK_OVERLAP_WORDS
  if cs = [] then [fullText] else cs

-- ==================== CHUNK OVERLAP INVARIANT ====================

/-- Overlap property between two adjacent chunks: the last `overlap`
words of `c₁` (all of them when `c₁` has fewer) are the first words of
`c₂`. -/
def chunkOverlapOK (overlap : ℕ) (c₁ c₂ : Str) : Prop :=
  (pywords c₂).take (lastN overlap (pywords c₁)).length = lastN overlap (pywords c₁)

instance instDecChunkOverlapOK (overlap : ℕ) (c₁ c₂ : Str) :
    Decidable (chunkOverlapOK overlap c₁ c₂) :=
  inferInstanceAs (Decidable
    ((pywords c₂).take (lastN overlap (pywords c₁)).length = lastN overlap (pywords c₁)))

theorem lastN_of_le {α : Type} (n : ℕ) (l : List α) (h : l.length ≤ n) : lastN n l = l := by
  unfold lastN
  rw [Nat.sub_eq_zero_of_le h, List.drop_zero]

theorem lastN_ne_nil {α : Type} (n : ℕ) (l : List α) (hn : 0 < n) (hl : l ≠ []) :
    lastN n l ≠ [] := by
  unfold lastN
  intro h
  have hlen := congrArg List.length h
  rw [List.length_drop] at hlen
  have hlpos : 0 < l.length := List.length_pos.mpr hl
  simp at hlen
  omega

theorem take_pref_append {α : Type} {W W' p : List α} (h : W.take p.length = p) :
    (W ++ W').take p.length = p := by
  have hle : p.length ≤ W.length := by
    have hlen := congrArg List.length h
    rw [List.length_take] at hlen
    omega
  rw [List.take_append_of_le_length hle, h]

theorem pywords_joinSpace_append (cur : List Str) (s : Str) :
    pywords (joinSpace (cur ++ [s])) = pywords (joinSpace cur) ++ pywords s := by
  rw [pywords_joinSpace, pywords_joinSpace]
  simp

/-- Loop invariant for the overlap property: the emitted chunks form an
overlap chain, the chunk under construction is nonempty as soon as any
chunk was emitted, and its word list starts with the overlap seed taken
from the last emitted chunk. -/
def ChunksInv (overlap : ℕ) (st : ChunkState) : Prop :=
  List.Chain' (chunkOverlapOK overlap) st.chunks ∧
  (st.current = [] → st.chunks = []) ∧
  (st.current ≠ [] →
    pywords (joinSpace st.current) ≠ [] ∧
    ∀ c, st.chunks.getLast? = some c →
      (pywords (joinSpace st.current)).take (lastN overlap (pywords c)).length
        = lastN overlap (pywords c))

theorem stepSentence_inv (target overlap : ℕ) (hov : 0 < overlap) (st : ChunkState) (s : Str)
    (h : ChunksInv overlap st) : ChunksInv overlap (stepSentence target overlap st s) := by
  by_cases hsent : pyStrip s = []
  · have hstep : stepSentence target overlap st s = st := by
      unfold stepSentence
      rw [if_pos hsent]
    rw [hstep]
    exact h
  · have hsw : pywords (pyStrip s) ≠ [] := pywords_strip_ne_nil s hsent
    by_cases hcond : st.cwc + (pywords (pyStrip s)).length ≤ target ∨ st.current = []
    · have hstep : stepSentence target overlap st s =
          ⟨st.chunks, st.current ++ [pyStrip s], st.cwc + (pywords (pyStrip s)).length⟩ := by
        unfold stepSentence
        rw [if_neg hsent, if_pos hcond]
      rw [hstep]
      refine ⟨h.1, ?_, ?_⟩
      · intro hc
        exact absurd hc (by simp)
      · intro _
        constructor
        · rw [pywords_joinSpace_append]
          intro hnil
          exact hsw (List.append_eq_nil.mp hnil).2
        · intro c hc
          by_cases hcur : st.current = []
          · rw [h.2.1 hcur] at hc
            simp at hc
          · have hbase := (h.2.2 hcur).2 c hc
            rw [pywords_joinSpace_append]
            exact take_pref_append hbase
    · have hcur : st.current ≠ [] := fun hc => hcond (Or.inr hc)
      obtain ⟨hWne, hrel⟩ := h.2.2 hcur
      have hctW : pywords (pyStrip (joinSpace st.current)) = pywords (joinSpace st.current) :=
        pywords_strip (joinSpace st.current)
      have hctne : pyStrip (joinSpace st.current) ≠ [] := by
        intro hc
        apply hWne
        rw [← hctW, hc]
        rfl
      have hstep : stepSentence target overlap st s =
          ⟨st.chunks ++ [pyStrip (joinSpace st.current)],
           [joinSpace (if overlap ≤ (pywords (joinSpace st.current)).length
              then lastN overlap (pywords (joinSpace st.current))
              else pywords (joinSpace st.current)), pyStrip s],
           (if overlap ≤ (pywords (joinSpace st.current)).length
              then lastN overlap (pywords (joinSpace st.current))
              else pywords (joinSpace st.current)).length + (pywords (pyStrip s)).length⟩ := by
        unfold stepSentence
        rw [if_neg hsent, if_neg hcond]
        dsimp only
        rw [if_neg hctne, if_pos hov]
      have how : (if overlap ≤ (pywords (joinSpace st.current)).length
            then lastN overlap (pywords (joinSpace st.current))
            else pywords (joinSpace st.current))
          = lastN overlap (pywords (joinSpace st.current)) := by
        by_cases hle : overlap ≤ (pywords (joinSpace st.current)).length
        · rw [if_pos hle]
        · rw [if_neg hle, lastN_of_le _ _ (le_of_not_le hle)]
      rw [hstep, how]
      have hchain : List.Chain' (chunkOverlapOK overlap)
          (st.chunks ++ [pyStrip (joinSpace st.current)]) := by
        rw [List.chain'_append]
        refine ⟨h.1, List.chain'_singleton _, ?_⟩
        intro x hx y hy
        simp only [List.head?_cons, Option.mem_def, Option.some.injEq] at hy
        subst hy
        unfold chunkOverlapOK
        rw [hctW]
        exact hrel x (Option.mem_def.mp hx)
      have howwf : ∀ w ∈ lastN overlap (pywords (joinSpace st.current)),
          w ≠ [] ∧ ∀ c ∈ w, pyIsSpace c = false := by
        intro w hw
        exact pywords_wf (joinSpace st.current) w (List.mem_of_mem_drop hw)
      have hseed : pywords (joinSpace (lastN overlap (pywords (joinSpace st.current))))
          = lastN overlap (pywords (joinSpace st.current)) :=
        pywords_joinSpace_words _ howwf
      have hownil : lastN overlap (pywords (joinSpace st.current)) ≠ [] :=
        lastN_ne_nil overlap _ hov hWne
      have hW' : pywords (joinSpace
            [joinSpace (lastN overlap (pywords (joinSpace st.current))), pyStrip s])
          = lastN overlap (pywords (joinSpace st.current)) ++ pywords (pyStrip s) := by
        rw [pywords_joinSpace]
        simp [hseed]
      refine ⟨hchain, ?_, ?_⟩
      · intro hc
        exact absurd hc (by simp)
      · intro _
        constructor
        · rw [hW']
          intro hnil
          exact hownil (List.append_eq_nil.mp hnil).1
        · intro c hc
          rw [List.getLast?_concat] at hc
          have hcct : c = pyStrip (joinSpace st.current) := (Option.some.injEq _ _).mp hc.symm
          subst hcct
          rw [hW', hctW]
          exact List.take_left _ _

-- ==================== CLAIMS C2 AND C3 ====================

theorem foldl_inv {α σ : Type} (f : σ → α → σ) (P : σ → Prop)
    (hstep : ∀ s a, P s → P (f s a)) : ∀ (l : List α) (s : σ), P s → P (l.foldl f s) := by
  intro l
  induction l with
  | nil => intro s hs; exact hs
  | cons a l ih =>
    intro s hs
    exact ih (f s a) (hstep s a hs)

theorem closeState_chain (overlap : ℕ) (st : ChunkState) (h : ChunksInv overlap st) :
    List.Chain' (chunkOverlapOK overlap) (closeState st) := by
  unfold closeState
  by_cases hcur : st.current = []
  · rw [if_pos hcur]
    exact h.1
  · obtain ⟨hWne, hrel⟩ := h.2.2 hcur
    have hctne : pyStrip (joinSpace st.current) ≠ [] := by
      intro hc
      apply hWne
      rw [← pywords_strip (joinSpace st.current), hc]
      rfl
    rw [if_neg hcur, if_neg hctne, List.chain'_append]
    refine ⟨h.1, List.chain'_singleton _, ?_⟩
    intro x hx y hy
    simp only [List.head?_cons, Option.mem_def, Option.some.injEq] at hy
    subst hy
    unfold chunkOverlapOK
    rw [pywords_strip]
    exact hrel x (Option.mem_def.mp hx)

/-- C2 (amended): for every text, chunk-size target and positive overlap,
adjacent chunks of the sequence built by the sentence loop, before the
`MIN_CHUNK_WORDS` filter, satisfy the overlap property: the last
`overlap` words of a chunk are the first words of the next chunk.  (The
filter applied afterwards can drop a short middle chunk and break the
property between the chunks that remain, see the counterexample.) -/
theorem C2_chunk_overlap_prefilter (text : Str) (target overlap : ℕ) (hov : 0 < overlap) :
    List.Chain' (chunkOverlapOK overlap) (rawChunks text target overlap) := by
  apply closeState_chain
  apply foldl_inv (stepSentence target overlap) (ChunksInv overlap)
    (fun st s hs => stepSentence_inv target overlap hov st s hs)
  exact ⟨List.chain'_nil, fun _ => rfl, fun hc => absurd rfl hc⟩

/-- Witness for the amended C2 at a concrete text, target 10 and
overlap 1. -/
theorem C2_chunk_overlap_prefilter_witness :
    0 < 1 ∧ List.Chain' (chunkOverlapOK 1)
      (rawChunks "a a a a a a a a a a a a a a a a a a a a. b b b b b. c c c c c c c c c c c c c c c c c c c c.".data 10 1) :=
  ⟨Nat.one_pos, C2_chunk_overlap_prefilter _ 10 1 Nat.one_pos⟩

/-- C2 (counterexample): on this text, with target 10 and overlap 1, the
chunker emits exactly two chunks, and the last word of the first emitted
chunk is not the first word of the second one — a 6-word middle chunk
carrying the overlap was dropped by the `MIN_CHUNK_WORDS` filter. -/
theorem C2_chunk_overlap_counterexample :
    (text_to_chunks "a a a a a a a a a a a a a a a a a a a a. b b b b b. c c c c c c c c c c c c c c c c c c c c.".data 10 1).length = 2 ∧
    ¬ chunkOverlapOK 1
      ((text_to_chunks "a a a a a a a a a a a a a a a a a a a a. b b b b b. c c c c c c c c c c c c c c c c c c c c.".data 10 1).getD 0 [])
      ((text_to_chunks "a a a a a a a a a a a a a a a a a a a a. b b b b b. c c c c c c c c c c c c c c c c c c c c.".data 10 1).getD 1 []) := by
  constructor
  · decide
  · decide

/-- C3: every chunk persisted by the indexer for a document has at least
`MIN_CHUNK_WORDS` words, except when the chunker yields zero valid
chunks, in which case exactly one fallback chunk — the whole enriched
text, whatever its length — is persisted. -/
theorem C3_min_words (fullText : Str) :
    (text_to_chunks fullText CHUNK_WORD_TARGET CHUNK_OVERLAP_WORDS = [] →
      indexDocChunks fullText = [fullText]) ∧
    (text_to_chunks fullText CHUNK_WORD_TARGET CHUNK_OVERLAP_WORDS ≠ [] →
      ∀ c ∈ indexDocChunks fullText, MIN_CHUNK_WORDS ≤ (pywords c).length) := by
  constructor
  · intro h
    simp [indexDocChunks, h]
  · intro h c hc
    have hdef : indexDocChunks fullText
        = text_to_chunks fullText CHUNK_WORD_TARGET CHUNK_OVERLAP_WORDS := by
      simp [indexDocChunks, h]
    rw [hdef] at hc
    unfold text_to_chunks at hc
    exact of_decide_eq_true (List.mem_filter.mp hc).2

/-- Witness for C3: the empty document text yields zero chunks, and the
fallback emits it as the single chunk. -/
theorem C3_min_words_witness :
    text_to_chunks [] CHUNK_WORD_TARGET CHUNK_OVERLAP_WORDS = [] ∧ indexDocChunks [] = [[]] :=
  ⟨by decide, (C3_min_words []).1 (by decide)⟩

-- ==================== RETRIEVAL (rag.py lines 93-127) ====================

/-- Metadata dictionary of a stored chunk, restricted to the keys read by
`retrieve_documents`; a `none` field models an absent key. -/
structure Metadata where
  site : Option Str
  source : Option Str
  ville : Option Str
  period : Option Str
  coordonnees : Option Str
deriving DecidableEq

/-- Result of one `collection.query` call as consumed by
`retrieve_documents`: the inner (single-query) lists of documents and
metadatas, and the optional distances list (`results.get('distances')`).
Distances are floats in the source, modelled as `ℚ`. -/
structure QueryResults where
  documents : List Str
  metadatas : List Metadata
  distances : Option (List ℚ)

/-- Distance supplied by the store for result index `i`
(`results['distances'][0][i] if results.get('distances') else None`).
An out-of-range index yields `none` in the model; the store's alignment
contract keeps it in range. -/
def distAt (res : QueryResults) (i : ℕ) : Option ℚ :=
  match res.distances with
  | none => none
  | some dl => dl[i]?

/-- Model of Python `round(x, 3)` on `ℚ`. -/
def round3 (x : ℚ) : ℚ := ((round (x * 1000) : ℤ) : ℚ) / 1000

/-- Relevance computation `round(1 - distance, 3) if distance else None`
(`rag.py` line 123).  Note `0.0` is falsy in Python, so a zero distance
also yields `None`. -/
def relevanceOf (d : Option ℚ) : Option ℚ :=
  match d with
  | none => none
  | some dv => if dv ≠ 0 then some (round3 (1 - dv)) else none

/-- A `RetrievedSource` entry of the sources list. -/
structure Source where
  site : Str
  source : Str
  ville : Str
  periode : Str
  coordonnees : Str
  relevance : Option ℚ
deriving DecidableEq

/-- Default site name `"Sans titre"`. -/
def sansTitre : Str := "Sans titre".data

/-- Default source name `"inconnu"`. -/
def inconnu : Str := "inconnu".data

/-- One sources-list entry (`rag.py` lines 117-124). -/
def mkSource (m : Metadata) (d : Option ℚ) : Source :=
  ⟨m.site.getD sansTitre, m.source.getD inconnu, m.ville.getD [],
   m.period.getD [], m.coordonnees.getD [], relevanceOf d⟩

/-- Deduplication loop over the zipped documents and metadatas
(`rag.py` lines 110-124): keep the first result per distinct site value;
`seen` models the `seen_sites` set, `i` the running result index. -/
def sourcesAux (res : QueryResults) : List (Str × Metadata) → ℕ → List Str → List Source
  | [], _, _ => []
  | (_, m) :: rest, i, seen =>
    if m.site.getD sansTitre ∈ seen then sourcesAux res rest (i + 1) seen
    else mkSource m (distAt res i) :: sourcesAux res rest (i + 1) (m.site.getD sansTitre :: seen)

/-- All source entries in store order, without deduplication (used to
state which entries the dedup loop keeps). -/
def allSourcesAux (res : QueryResults) : List (Str × Metadata) → ℕ → List Source
  | [], _ => []
  | (_, m) :: rest, i => mkSource m (distAt res i) :: allSourcesAux res rest (i + 1)

/-- The undeduplicated source list of a query result. -/
def fullSources (res : QueryResults) : List Source :=
  allSourcesAux res (res.documents.zip res.metadatas) 0

/-- Model of `RAGChatbot.retrieve_documents` after the store call
(`rag.py` lines 103-127): empty results give `("", [])`; otherwise the
context joins the stripped document texts with blank lines, and the
sources list is deduplicated by site. -/
def retrieve_documents (res : QueryResults) : Str × List Source :=
  if res.documents = [] then ([], [])
  else
    (joinSep "\n\n".data ((res.documents.zip res.metadatas).map (fun p => pyStrip p.1)),
     sourcesAux res (res.documents.zip res.metadatas) 0 [])

-- ==================== LEMMAS ON THE DEDUP LOOP ====================

theorem sourcesAux_nodup (res : QueryResults) :
    ∀ (entries : List (Str × Metadata)) (i : ℕ) (seen : List Str),
      ((sourcesAux res entries i seen).map Source.site).Nodup ∧
      ∀ s ∈ sourcesAux res entries i seen, s.site ∉ seen := by
  intro entries
  induction entries with
  | nil => intro i seen; exact ⟨List.nodup_nil, by simp [sourcesAux]⟩
  | cons e rest ih =>
    intro i seen
    obtain ⟨d, m⟩ := e
    by_cases hseen : m.site.getD sansTitre ∈ seen
    · have hdef : sourcesAux res ((d, m) :: rest) i seen = sourcesAux res rest (i + 1) seen := by
        simp [sourcesAux, hseen]
      rw [hdef]
      exact ih (i + 1) seen
    · have hdef : sourcesAux res ((d, m) :: rest) i seen
          = mkSource m (distAt res i)
            :: sourcesAux res rest (i + 1) (m.site.getD sansTitre :: seen) := by
        simp [sourcesAux, hseen]
      rw [hdef]
      obtain ⟨hnd, hnin⟩ := ih (i + 1) (m.site.getD sansTitre :: seen)
      refine ⟨?_, ?_⟩
      · simp only [List.map_cons]
        rw [List.nodup_cons]
        refine ⟨?_, hnd⟩
        intro hmem
        obtain ⟨s, hs, hkey⟩ := List.mem_map.mp hmem
        exact hnin s hs (by rw [hkey]; exact List.mem_cons_self _ _)
      · intro s hs
        rcases List.mem_cons.mp hs with rfl | hs'
        · exact hseen
        · intro hcontra
          exact hnin s hs' (List.mem_cons_of_mem _ hcontra)

theorem sourcesAux_sublist (res : QueryResults) :
    ∀ (entries : List (Str × Metadata)) (i : ℕ) (seen : List Str),
      List.Sublist (sourcesAux res entries i seen) (allSourcesAux res entries i) := by
  intro entries
  induction entries with
  | nil => intro i seen; simp [sourcesAux, allSourcesAux]
  | cons e rest ih =>
    intro i seen
    obtain ⟨d, m⟩ := e
    by_cases hseen : m.site.getD sansTitre ∈ seen
    · have hdef : sourcesAux res ((d, m) :: rest) i seen = sourcesAux res rest (i + 1) seen := by
        simp [sourcesAux, hseen]
      rw [hdef]
      exact List.Sublist.cons _ (ih (i + 1) seen)
    · have hdef : sourcesAux res ((d, m) :: rest) i seen
          = mkSource m (distAt res i)
            :: sourcesAux res rest (i + 1) (m.site.getD sansTitre :: seen) := by
        simp [sourcesAux, hseen]
      rw [hdef]
      exact List.Sublist.cons₂ _ (ih (i + 1) _)

theorem sourcesAux_first_occ (res : QueryResults) :
    ∀ (entries : List (Str × Metadata)) (i : ℕ) (seen : List Str),
      ∀ s ∈ sourcesAux res entries i seen,
        s.site ∉ seen ∧
        ∃ pre post, allSourcesAux res entries i = pre ++ s :: post ∧
          ∀ t ∈ pre, t.site = s.site → t.site ∈ seen := by
  intro entries
  induction entries with
  | nil => intro i seen s hs; simp [sourcesAux] at hs
  | cons e rest ih =>
    intro i seen s hs
    obtain ⟨d, m⟩ := e
    by_cases hseen : m.site.getD sansTitre ∈ seen
    · have hdef : sourcesAux res ((d, m) :: rest) i seen = sourcesAux res rest (i + 1) seen := by
        simp [sourcesAux, hseen]
      rw [hdef] at hs
      obtain ⟨hnot, pre, post, heq, hpre⟩ := ih (i + 1) seen s hs
      refine ⟨hnot, mkSource m (distAt res i) :: pre, post, ?_, ?_⟩
      · show allSourcesAux res ((d, m) :: rest) i = _
        simp [allSourcesAux, heq]
      · intro t ht hts
        rcases List.mem_cons.mp ht with rfl | ht'
        · exact hseen
        · exact hpre t ht' hts
    · have hdef : sourcesAux res ((d, m) :: rest) i seen
          = mkSource m (distAt res i)
            :: sourcesAux res rest (i + 1) (m.site.getD sansTitre :: seen) := by
        simp [sourcesAux, hseen]
      rw [hdef] at hs
      rcases List.mem_cons.mp hs with rfl | hs'
      · refine ⟨hseen, [], allSourcesAux res rest (i + 1), ?_, by simp⟩
        simp [allSourcesAux]
      · obtain ⟨hnot, pre, post, heq, hpre⟩ := ih (i + 1) (m.site.getD sansTitre :: seen) s hs'
        have hne : s.site ≠ m.site.getD sansTitre := by
          intro hsite
          exact hnot (hsite ▸ List.mem_cons_self _ _)
        refine ⟨fun hc => hnot (List.mem_cons_of_mem _ hc),
          mkSource m (distAt res i) :: pre, post, ?_, ?_⟩
        · show allSourcesAux res ((d, m) :: rest) i = _
          simp [allSourcesAux, heq]
        · intro t ht hts
          rcases List.mem_cons.mp ht with rfl | ht'
          · exact absurd (show s.site = m.site.getD sansTitre from hts.symm) hne
          · rcases List.mem_cons.mp (hpre t ht' hts) with hkey | hin
            · exact absurd (hts.symm.trans hkey) hne
            · exact hin

theorem sourcesAux_provenance (res : QueryResults) :
    ∀ (entries : List (Str × Metadata)) (i : ℕ) (seen : List Str),
      ∀ s ∈ sourcesAux res entries i seen,
        ∃ k p, entries[k]? = some p ∧ s = mkSource p.2 (distAt res (i + k)) := by
  intro entries
  induction entries with
  | nil => intro i seen s hs; simp [sourcesAux] at hs
  | cons e rest ih =>
    intro i seen s hs
    obtain ⟨d, m⟩ := e
    by_cases hseen : m.site.getD sansTitre ∈ seen
    · have hdef : sourcesAux res ((d, m) :: rest) i seen = sourcesAux res rest (i + 1) seen := by
        simp [sourcesAux, hseen]
      rw [hdef] at hs
      obtain ⟨k, p, hk, hmk⟩ := ih (i + 1) seen s hs
      exact ⟨k + 1, p, by simpa using hk,
        by rw [hmk, show i + 1 + k = i + (k + 1) from by omega]⟩
    · have hdef : sourcesAux res ((d, m) :: rest) i seen
          = mkSource m (distAt res i)
            :: sourcesAux res rest (i + 1) (m.site.getD sansTitre :: seen) := by
        simp [sourcesAux, hseen]
      rw [hdef] at hs
      rcases List.mem_cons.mp hs with rfl | hs'
      · exact ⟨0, (d, m), by simp, by simp⟩
      · obtain ⟨k, p, hk, hmk⟩ := ih (i + 1) _ s hs'
        exact ⟨k + 1, p, by simpa using hk,
          by rw [hmk, show i + 1 + k = i + (k + 1) from by omega]⟩

theorem zip_getElem?_right {α β : Type} :
    ∀ (l₁ : List α) (l₂ : List β) (k : ℕ) (p : α × β),
      (l₁.zip l₂)[k]? = some p → l₂[k]? = some p.2 := by
  intro l₁
  induction l₁ with
  | nil => intro l₂ k p h; simp [List.zip] at h
  | cons a l₁ ih =>
    intro l₂ k p h
    cases l₂ with
    | nil => simp [List.zip] at h
    | cons b l₂ =>
      rw [List.zip_cons_cons] at h
      cases k with
      | zero =>
        simp at h ⊢
        rw [← h]
      | succ k =>
        simp at h ⊢
        exact ih l₂ k p h

theorem round3_mem_unit (x : ℚ) (h0 : 0 ≤ x) (h1 : x < 1) :
    0 ≤ round3 x ∧ round3 x ≤ 1 := by
  have hlo : (0 : ℤ) ≤ round (x * 1000) := by
    rw [round_eq]
    exact Int.floor_nonneg.mpr (by linarith)
  have hhi : round (x * 1000) ≤ 1000 := by
    rw [round_eq]
    have h : ⌊x * 1000 + 1 / 2⌋ < 1001 := Int.floor_lt.mpr (by push_cast; linarith)
    omega
  constructor
  · unfold round3
    apply div_nonneg _ (by norm_num)
    exact_mod_cast hlo
  · unfold round3
    rw [div_le_one (by norm_num : (0 : ℚ) < 1000)]
    exact_mod_cast hhi

-- ==================== CLAIMS C1 AND C4 ====================

/-- C1 (amended): every entry of the sources list comes from some result
index `i`; its relevance equals `1 − d` rounded to three decimals when
the store supplied a nonzero distance `d` there, and is `None` when the
distance is unavailable or equal to `0` (Python treats `0.0` as falsy);
the value lies in `[0, 1]` whenever the supplied distance lies in
`(0, 1]` (a distance above 1 produces a value below 0, and is passed
through unclamped). -/
theorem C1_relevance_amended (res : QueryResults) (s : Source)
    (hs : s ∈ (retrieve_documents res).2) :
    ∃ i m, res.metadatas[i]? = some m ∧ s = mkSource m (distAt res i) ∧
      ((distAt res i = none ∨ distAt res i = some 0) → s.relevance = none) ∧
      ∀ dv : ℚ, distAt res i = some dv → dv ≠ 0 →
        s.relevance = some (round3 (1 - dv)) ∧
        (0 < dv → dv ≤ 1 → 0 ≤ round3 (1 - dv) ∧ round3 (1 - dv) ≤ 1) := by
  by_cases hd : res.documents = []
  · rw [show (retrieve_documents res).2 = [] by simp [retrieve_documents, hd]] at hs
    simp at hs
  · have hs' : s ∈ sourcesAux res (res.documents.zip res.metadatas) 0 [] := by
      rw [show (retrieve_documents res).2
          = sourcesAux res (res.documents.zip res.metadatas) 0 [] by
        simp [retrieve_documents, hd]] at hs
      exact hs
    obtain ⟨k, p, hk, hmk⟩ := sourcesAux_provenance res _ 0 [] s hs'
    have hm : res.metadatas[k]? = some p.2 := zip_getElem?_right _ _ k p hk
    rw [Nat.zero_add] at hmk
    refine ⟨k, p.2, hm, hmk, ?_, ?_⟩
    · intro hcase
      rw [hmk]
      show relevanceOf (distAt res k) = none
      rcases hcase with hnone | hzero
      · rw [hnone]; rfl
      · rw [hzero]; simp [relevanceOf]
    · intro dv hdv hnz
      constructor
      · rw [hmk]
        show relevanceOf (distAt res k) = some (round3 (1 - dv))
        rw [hdv]
        simp [relevanceOf, hnz]
      · intro hpos hle
        exact round3_mem_unit (1 - dv) (by linarith) (by linarith)

/-- Witness for the amended C1: a store reply with one result at
distance 1/2 yields one source entry, to which the theorem applies. -/
theorem C1_relevance_amended_witness :
    mkSource ⟨some "Carthage".data, none, none, none, none⟩ (some (1 / 2))
        ∈ (retrieve_documents ⟨["doc".data],
            [⟨some "Carthage".data, none, none, none, none⟩], some [1 / 2]⟩).2 ∧
    ∃ i m, (⟨["doc".data], [⟨some "Carthage".data, none, none, none, none⟩],
          some [1 / 2]⟩ : QueryResults).metadatas[i]? = some m ∧
      mkSource ⟨some "Carthage".data, none, none, none, none⟩ (some (1 / 2))
          = mkSource m (distAt ⟨["doc".data],
              [⟨some "Carthage".data, none, none, none, none⟩], some [1 / 2]⟩ i) ∧
      ((distAt ⟨["doc".data], [⟨some "Carthage".data, none, none, none, none⟩],
            some [1 / 2]⟩ i = none ∨
        distAt ⟨["doc".data], [⟨some "Carthage".data, none, none, none, none⟩],
            some [1 / 2]⟩ i = some 0) →
        (mkSource ⟨some "Carthage".data, none, none, none, none⟩ (some (1 / 2))).relevance
          = none) ∧
      ∀ dv : ℚ, distAt ⟨["doc".data], [⟨some "Carthage".data, none, none, none, none⟩],
            some [1 / 2]⟩ i = some dv → dv ≠ 0 →
        (mkSource ⟨some "Carthage".data, none, none, none, none⟩ (some (1 / 2))).relevance
            = some (round3 (1 - dv)) ∧
        (0 < dv → dv ≤ 1 → 0 ≤ round3 (1 - dv) ∧ round3 (1 - dv) ≤ 1) := by
  have hmem : mkSource ⟨some "Carthage".data, none, none, none, none⟩ (some (1 / 2))
      ∈ (retrieve_documents ⟨["doc".data],
          [⟨some "Carthage".data, none, none, none, none⟩], some [1 / 2]⟩).2 := by
    rw [show (retrieve_documents ⟨["doc".data],
        [⟨some "Carthage".data, none, none, none, none⟩], some [1 / 2]⟩).2
          = [mkSource ⟨some "Carthage".data, none, none, none, none⟩ (some (1 / 2))] by
      simp [retrieve_documents, sourcesAux, distAt]]
    exact List.mem_singleton.mpr rfl
  exact ⟨hmem, C1_relevance_amended _ _ hmem⟩

/-- C1 (counterexample): with one result whose distance is `0`, the
distance is supplied by the store yet the entry's relevance is `None`
(`0.0` is falsy in Python), contradicting "relevance is None exactly
when the distance is unavailable"; and with one result at distance `2`,
relevance is `-1`, which is not in `[0, 1]`. -/
theorem C1_relevance_counterexample :
    (⟨["doc".data], [⟨some "Carthage".data, none, none, none, none⟩],
        some [0]⟩ : QueryResults).distances = some [(0 : ℚ)] ∧
    (retrieve_documents ⟨["doc".data], [⟨some "Carthage".data, none, none, none, none⟩],
        some [0]⟩).2.map Source.relevance = [none] ∧
    (⟨["doc".data], [⟨some "Carthage".data, none, none, none, none⟩],
        some [2]⟩ : QueryResults).distances = some [(2 : ℚ)] ∧
    (retrieve_documents ⟨["doc".data], [⟨some "Carthage".data, none, none, none, none⟩],
        some [2]⟩).2.map Source.relevance = [some (-1 : ℚ)] ∧
    ¬ (0 : ℚ) ≤ -1 := by
  refine ⟨rfl, ?_, rfl, ?_, by norm_num⟩
  · simp [retrieve_documents, sourcesAux, mkSource, distAt, relevanceOf]
  · simp [retrieve_documents, sourcesAux, mkSource, distAt, relevanceOf]
    norm_num [round3, round_eq]

/-- C4: the sources list contains at most one entry per site (its mapped
site values are nodup); it is a sublist of the per-result source entries
in store order, hence ordered by descending similarity whenever the
store returns results in similarity order; and each kept entry is the
first occurrence of its site value in store order. -/
theorem C4_source_dedup (res : QueryResults) :
    ((retrieve_documents res).2.map Source.site).Nodup ∧
    List.Sublist (retrieve_documents res).2 (fullSources res) ∧
    ∀ s ∈ (retrieve_documents res).2,
      ∃ pre post, fullSources res = pre ++ s :: post ∧ ∀ t ∈ pre, t.site ≠ s.site := by
  by_cases hd : res.documents = []
  · have h2 : (retrieve_documents res).2 = [] := by simp [retrieve_documents, hd]
    rw [h2]
    exact ⟨List.nodup_nil, List.nil_sublist _, by simp⟩
  · have h2 : (retrieve_documents res).2
        = sourcesAux res (res.documents.zip res.metadatas) 0 [] := by
      simp [retrieve_documents, hd]
    rw [h2]
    refine ⟨(sourcesAux_nodup res _ 0 []).1, sourcesAux_sublist res _ 0 [], ?_⟩
    intro s hs
    obtain ⟨-, pre, post, heq, hpre⟩ := sourcesAux_first_occ res _ 0 [] s hs
    refine ⟨pre, post, heq, ?_⟩
    intro t ht hts
    simpa using hpre t ht hts

/-- Witness for C4: two results with the same site value collapse to a
single source entry, the first occurrence. -/
theorem C4_source_dedup_witness :
    ((retrieve_documents ⟨["d1".data, "d2".data],
        [⟨some "Dougga".data, none, none, none, none⟩,
         ⟨some "Dougga".data, none, none, none, none⟩], none⟩).2.map Source.site).Nodup ∧
    (mkSource ⟨some "Dougga".data, none, none, none, none⟩ none
        ∈ (retrieve_documents ⟨["d1".data, "d2".data],
            [⟨some "Dougga".data, none, none, none, none⟩,
             ⟨some "Dougga".data, none, none, none, none⟩], none⟩).2) ∧
    ∃ pre post, fullSources ⟨["d1".data, "d2".data],
        [⟨some "Dougga".data, none, none, none, none⟩,
         ⟨some "Dougga".data, none, none, none, none⟩], none⟩ = pre ++
          mkSource ⟨some "Dougga".data, none, none, none, none⟩ none :: post ∧
      ∀ t ∈ pre, t.site ≠ (mkSource ⟨some "Dougga".data, none, none, none, none⟩ none).site := by
  have hmem : mkSource ⟨some "Dougga".data, none, none, none, none⟩ none
      ∈ (retrieve_documents ⟨["d1".data, "d2".data],
          [⟨some "Dougga".data, none, none, none, none⟩,
           ⟨some "Dougga".data, none, none, none, none⟩], none⟩).2 := by decide
  exact ⟨(C4_source_dedup _).1, hmem, (C4_source_dedup _).2.2 _ hmem⟩

-- ==================== GENERATION CLIENT (rag.py lines 163-200) ====================

/-- Apostrophe character, used inside the French message constants. -/
def apos : Char := Char.ofNat 39

/-- Configuration constant `LLM_MODEL` from `rag.py`. -/
def LLM_MODEL : Str := "llama3".data

/-- Error message for HTTP 404 (model not provisioned). -/
def modelNotFoundMsg : Str :=
  "❌ Modèle ".data ++ [apos] ++ LLM_MODEL ++ [apos]
    ++ " non trouvé. Exécutez: ollama pull ".data ++ LLM_MODEL

/-- Error message for any other non-success HTTP status, carrying the
status code. -/
def apiErrorMsg (code : ℕ) : Str :=
  "❌ Erreur API (code ".data ++ (toString code).data ++ ")".data

/-- Error message returned on a request timeout. -/
def timeoutMsg : Str :=
  "⏱️ Délai d".data ++ [apos] ++ "attente dépassé. Le modèle prend trop de temps.".data

/-- Error message returned when the generation service is unreachable. -/
def connectionErrorMsg : Str :=
  "❌ Impossible de se connecter à Ollama. Vérifiez qu".data ++ [apos]
    ++ "il est lancé avec: ollama serve".data

/-- Error message for any other exception. -/
def genericErrorMsg (m : Str) : Str := "❌ Erreur: ".data ++ m

/-- Outcome of the HTTP call to the generation service: a response with
a status code, body content and optional `eval_count`, or one of the
exception paths (`Timeout`, `ConnectionError`, any other exception). -/
inductive GenOutcome where
  | http (statusCode : ℕ) (content : Str) (evalCount : Option ℕ) (elapsedMs : ℕ)
  | timeout
  | connectionError
  | otherError (msg : Str)

/-- Model of `RAGChatbot.generate_response` (`rag.py` lines 163-200):
returns `(answer, tokens, response_time_ms)` on every outcome — no
failure path raises to the caller. -/
def generate_response (o : GenOutcome) : Str × ℕ × ℕ :=
  match o with
  | .http code content evalCount elapsed =>
    if code = 200 then (content, evalCount.getD 0, elapsed)
    else if code = 404 then (modelNotFoundMsg, 0, elapsed)
    else (apiErrorMsg code, 0, elapsed)
  | .timeout => (timeoutMsg, 0, 0)
  | .connectionError => (connectionErrorMsg, 0, 0)
  | .otherError m => (genericErrorMsg m, 0, 0)

-- ==================== ORCHESTRATOR (rag.py lines 131-240) ====================

/-- A conversation message: `{"role": ..., "content": ...}`. -/
structure Msg where
  role : Str
  content : Str

/-- Chatbot state: the in-memory conversation history. -/
structure RAGBot where
  history : List Msg

/-- The fixed system prompt of `build_messages` (`rag.py` lines 133-142). -/
def systemPrompt : Str :=
  "Tu es un assistant expert spécialisé sur les sites archéologiques de Tunisie.\n\nRÈGLES IMPORTANTES:\n1. Réponds UNIQUEMENT avec les informations du CONTEXTE fourni\n2. Si l".data
    ++ [apos] ++ "information n".data ++ [apos]
    ++ "est pas dans le contexte, dis clairement: \"Je n".data ++ [apos]
    ++ "ai pas cette information dans ma base de données.\"\n3. Ne jamais inventer ou supposer des informations\n4. Réponds en français de manière claire et professionnelle\n5. Structure tes réponses avec des paragraphes si nécessaire\n6. Mentionne les sources (sites) quand tu donnes des informations\n7. Si on te demande des coordonnées ou localisations, fournis-les si disponibles".data

/-- The final user prompt embedding the retrieved context and the query
(`rag.py` lines 144-149). -/
def userPrompt (context query : Str) : Str :=
  "CONTEXTE (Base de données des sites archéologiques tunisiens):\n".data ++ context
    ++ "\n\nQUESTION: ".data ++ query
    ++ "\n\nRéponds de manière précise et informative en te basant uniquement sur le contexte ci-dessus.".data

/-- Model of `RAGChatbot.build_messages` (`rag.py` lines 131-161): the
system message, the last `MAX_HISTORY_MESSAGES` history turns verbatim,
then the user message with context and query. -/
def build_messages (bot : RAGBot) (query context : Str) : List Msg :=
  Msg.mk "system".data systemPrompt
    :: (lastN MAX_HISTORY_MESSAGES bot.history
        ++ [Msg.mk "user".data (userPrompt context query)])

/-- The validation-error message of `answer`. -/
def validationMsg : Str := "❌ Veuillez entrer une question valide.".data

/-- The empty-retrieval message of `answer`. -/
def noDocsMsg : Str :=
  "❌ Aucun document trouvé dans la base de données. Exécutez d".data ++ [apos]
    ++ "abord: python ingest.py".data

/-- Result of one `answer` call: the returned quadruple plus the updated
chatbot state (state passing replaces the Python field mutation). -/
structure AnswerOut where
  answer : Str
  sources : List Source
  tokens : ℕ
  responseMs : ℕ
  bot : RAGBot

/-- Model of `RAGChatbot.answer` (`rag.py` lines 204-227).  The embedding
call plus `collection.query` are the oracle `store` (the sanitized query
is what reaches it; `top_k` is absorbed into the oracle), and the HTTP
call of `generate_response` is the oracle `gen`.  A branch that does not
apply an oracle models a branch that never calls that service. -/
def answer (bot : RAGBot) (queryV : PyVal) (store : Str → QueryResults)
    (gen : List Msg → GenOutcome) : AnswerOut :=
  let query := sanitize_input queryV
  if query = [] then ⟨validationMsg, [], 0, 0, bot⟩
  else
    let rd := retrieve_documents (store query)
    if rd.1 = [] then ⟨noDocsMsg, [], 0, 0, bot⟩
    else
      let g := generate_response (gen (build_messages bot query rd.1))
      let h2 := bot.history ++ [Msg.mk "user".data query, Msg.mk "assistant".data g.1]
      let h' := if MAX_HISTORY_MESSAGES * 2 < h2.length
        then lastN (MAX_HISTORY_MESSAGES * 2) h2 else h2
      ⟨g.1, rd.2, g.2.1, g.2.2, ⟨h'⟩⟩

/-- Model of `RAGChatbot.load_history_from_messages`
(`rag.py` lines 229-236). -/
def load_history_from_messages (msgs : List Msg) : RAGBot :=
  ⟨(lastN MAX_HISTORY_MESSAGES msgs).map (fun m => Msg.mk m.role m.content)⟩

/-- Model of `RAGChatbot.clear_history` (`rag.py` lines 238-240). -/
def clear_history : RAGBot := ⟨[]⟩

-- ==================== BRANCH CHARACTERIZATION OF answer ====================

theorem answer_of_invalid (bot : RAGBot) (q : PyVal) (store : Str → QueryResults)
    (gen : List Msg → GenOutcome) (hq : sanitize_input q = []) :
    answer bot q store gen = ⟨validationMsg, [], 0, 0, bot⟩ := by
  simp [answer, hq]

theorem answer_of_empty_context (bot : RAGBot) (q : PyVal) (store : Str → QueryResults)
    (gen : List Msg → GenOutcome) (hq : sanitize_input q ≠ [])
    (hctx : (retrieve_documents (store (sanitize_input q))).1 = []) :
    answer bot q store gen = ⟨noDocsMsg, [], 0, 0, bot⟩ := by
  simp [answer, hq, hctx]

theorem answer_of_gen (bot : RAGBot) (q : PyVal) (store : Str → QueryResults)
    (gen : List Msg → GenOutcome) (hq : sanitize_input q ≠ [])
    (hctx : (retrieve_documents (store (sanitize_input q))).1 ≠ []) :
    answer bot q store gen =
      ⟨(generate_response (gen (build_messages bot (sanitize_input q)
          (retrieve_documents (store (sanitize_input q))).1))).1,
       (retrieve_documents (store (sanitize_input q))).2,
       (generate_response (gen (build_messages bot (sanitize_input q)
          (retrieve_documents (store (sanitize_input q))).1))).2.1,
       (generate_response (gen (build_messages bot (sanitize_input q)
          (retrieve_documents (store (sanitize_input q))).1))).2.2,
       ⟨lastN (MAX_HISTORY_MESSAGES * 2) (bot.history ++
          [Msg.mk "user".data (sanitize_input q),
           Msg.mk "assistant".data (generate_response (gen (build_messages bot (sanitize_input q)
              (retrieve_documents (store (sanitize_input q))).1))).1])⟩⟩ := by
  have hcollapse : ∀ (h2 : List Msg),
      (if MAX_HISTORY_MESSAGES * 2 < h2.length
        then lastN (MAX_HISTORY_MESSAGES * 2) h2 else h2)
        = lastN (MAX_HISTORY_MESSAGES * 2) h2 := by
    intro h2
    by_cases hlen : MAX_HISTORY_MESSAGES * 2 < h2.length
    · rw [if_pos hlen]
    · rw [if_neg hlen, lastN_of_le _ _ (le_of_not_lt hlen)]
  simp only [answer, if_neg hq, if_neg hctx, hcollapse]

-- ==================== CLAIMS C5, C6, C7, C8, C10 ====================

/-- C5: the conversation history holds at most
`MAX_HISTORY_MESSAGES * 2` entries after any `answer` call (given the
invariant held before, as it does in every state the class can reach:
the constructor and `clear_history` give an empty history and
`load_history_from_messages` at most `MAX_HISTORY_MESSAGES` entries),
and when the history changes it becomes exactly the most recent entries
of the old history extended by the new user/assistant pair — the oldest
entries are dropped first. -/
theorem C5_history_bound :
    (∀ msgs : List Msg,
      (load_history_from_messages msgs).history.length ≤ MAX_HISTORY_MESSAGES * 2) ∧
    ∀ (bot : RAGBot) (q : PyVal) (store : Str → QueryResults) (gen : List Msg → GenOutcome),
      bot.history.length ≤ MAX_HISTORY_MESSAGES * 2 →
      (answer bot q store gen).bot.history.length ≤ MAX_HISTORY_MESSAGES * 2 ∧
      ((answer bot q store gen).bot.history = bot.history ∨
        ∃ u a, (answer bot q store gen).bot.history
            = lastN (MAX_HISTORY_MESSAGES * 2) (bot.history ++ [u, a]) ∧
          (answer bot q store gen).bot.history.length
            = min (bot.history.length + 2) (MAX_HISTORY_MESSAGES * 2)) := by
  constructor
  · intro msgs
    show ((lastN MAX_HISTORY_MESSAGES msgs).map _).length ≤ MAX_HISTORY_MESSAGES * 2
    rw [List.length_map]
    unfold lastN
    rw [List.length_drop]
    omega
  · intro bot q store gen hlen
    by_cases hq : sanitize_input q = []
    · rw [answer_of_invalid bot q store gen hq]
      exact ⟨hlen, Or.inl rfl⟩
    · by_cases hctx : (retrieve_documents (store (sanitize_input q))).1 = []
      · rw [answer_of_empty_context bot q store gen hq hctx]
        exact ⟨hlen, Or.inl rfl⟩
      · rw [answer_of_gen bot q store gen hq hctx]
        have hl2 : (bot.history ++
            [Msg.mk "user".data (sanitize_input q),
             Msg.mk "assistant".data (generate_response (gen (build_messages bot (sanitize_input q)
                (retrieve_documents (store (sanitize_input q))).1))).1]).length
            = bot.history.length + 2 := by
          rw [List.length_append]
          rfl
        constructor
        · show (lastN (MAX_HISTORY_MESSAGES * 2) _).length ≤ MAX_HISTORY_MESSAGES * 2
          unfold lastN
          rw [List.length_drop, hl2]
          unfold MAX_HISTORY_MESSAGES
          omega
        · refine Or.inr ⟨_, _, rfl, ?_⟩
          show (lastN (MAX_HISTORY_MESSAGES * 2) _).length = _
          unfold lastN
          rw [List.length_drop, hl2]
          unfold MAX_HISTORY_MESSAGES at hlen ⊢
          omega

/-- Witness for C5: a fresh bot with empty history, a query, an empty
store and a timing-out generator keep the history within the bound. -/
theorem C5_history_bound_witness :
    ((⟨[]⟩ : RAGBot)).history.length ≤ MAX_HISTORY_MESSAGES * 2 ∧
    (answer ⟨[]⟩ (.pstr "Carthage".data) (fun _ => ⟨[], [], none⟩)
        (fun _ => .timeout)).bot.history.length ≤ MAX_HISTORY_MESSAGES * 2 :=
  ⟨by decide,
   (C5_history_bound.2 ⟨[]⟩ (.pstr "Carthage".data) (fun _ => ⟨[], [], none⟩)
      (fun _ => .timeout) (by decide)).1⟩

/-- C6: a store reply with zero hits makes `retrieve_documents` return
exactly `("", [])`, and `answer` on such a reply returns the terminal
"nothing found" message with empty sources and zero counters, without
calling the generation service (its result does not depend on the
generation oracle). -/
theorem C6_empty_retrieval :
    (∀ res : QueryResults, res.documents = [] → retrieve_documents res = ([], [])) ∧
    ∀ (bot : RAGBot) (q : PyVal) (store : Str → QueryResults)
        (gen gen' : List Msg → GenOutcome),
      sanitize_input q ≠ [] → (store (sanitize_input q)).documents = [] →
      answer bot q store gen = ⟨noDocsMsg, [], 0, 0, bot⟩ ∧
      answer bot q store gen = answer bot q store gen' := by
  constructor
  · intro res h
    simp [retrieve_documents, h]
  · intro bot q store gen gen' hq hdocs
    have hctx : (retrieve_documents (store (sanitize_input q))).1 = [] := by
      simp [retrieve_documents, hdocs]
    have h1 := answer_of_empty_context bot q store gen hq hctx
    have h2 := answer_of_empty_context bot q store gen' hq hctx
    exact ⟨h1, h1.trans h2.symm⟩

/-- Witness for C6: a concrete query against an empty store. -/
theorem C6_empty_retrieval_witness :
    sanitize_input (.pstr "Dougga".data) ≠ [] ∧
    answer ⟨[]⟩ (.pstr "Dougga".data) (fun _ => ⟨[], [], none⟩) (fun _ => .timeout)
        = ⟨noDocsMsg, [], 0, 0, ⟨[]⟩⟩ ∧
    answer ⟨[]⟩ (.pstr "Dougga".data) (fun _ => ⟨[], [], none⟩) (fun _ => .timeout)
        = answer ⟨[]⟩ (.pstr "Dougga".data) (fun _ => ⟨[], [], none⟩)
            (fun _ => .connectionError) :=
  ⟨by decide,
   C6_empty_retrieval.2 ⟨[]⟩ (.pstr "Dougga".data) (fun _ => ⟨[], [], none⟩)
     (fun _ => .timeout) (fun _ => .connectionError) (by decide) rfl⟩

/-- C7: `None`, non-string values, the empty string and whitespace-only
strings all sanitize to the empty string, and `answer` on any input that
sanitizes to the empty string returns the validation-error message with
empty sources, zero tokens and zero latency, independently of both the
store and the generation oracles (neither is called). -/
theorem C7_validation :
    sanitize_input .pnone = [] ∧ sanitize_input .pother = [] ∧
    (∀ s : Str, (∀ c ∈ s, pyIsSpace c = true) → sanitize_input (.pstr s) = []) ∧
    ∀ (bot : RAGBot) (q : PyVal) (store store' : Str → QueryResults)
        (gen gen' : List Msg → GenOutcome),
      sanitize_input q = [] →
      answer bot q store gen = ⟨validationMsg, [], 0, 0, bot⟩ ∧
      answer bot q store gen = answer bot q store' gen' := by
  refine ⟨rfl, rfl, ?_, ?_⟩
  · intro s hws
    by_cases hs : s = []
    · simp [sanitize_input, hs]
    · have hdrop : s.dropWhile pyIsSpace = [] :=
        List.dropWhile_eq_nil_iff.mpr (fun c hc => hws c hc)
      have hstrip : pyStrip s = [] := by simp [pyStrip, hdrop]
      simp [sanitize_input, hs, hstrip, removeNul, collapseWS, collapseWSAux]
  · intro bot q store store' gen gen' hq
    have h1 := answer_of_invalid bot q store gen hq
    have h2 := answer_of_invalid bot q store' gen' hq
    exact ⟨h1, h1.trans h2.symm⟩

/-- Witness for C7: a whitespace-only query. -/
theorem C7_validation_witness :
    sanitize_input (.pstr "   ".data) = [] ∧
    answer ⟨[]⟩ (.pstr "   ".data) (fun _ => ⟨[], [], none⟩) (fun _ => .timeout)
        = ⟨validationMsg, [], 0, 0, ⟨[]⟩⟩ :=
  ⟨by decide,
   (C7_validation.2.2.2 ⟨[]⟩ (.pstr "   ".data) (fun _ => ⟨[], [], none⟩)
      (fun _ => ⟨[], [], none⟩) (fun _ => .timeout) (fun _ => .timeout) (by decide)).1⟩

/-- C8: the generation call is a total function of the outcome — no
failure raises to the caller.  Timeout and connection failure return
their human-readable message with zero tokens and zero latency; any
other exception returns a generic message with zero tokens and latency;
a non-200 HTTP response returns the actionable model-not-found message
for 404 and the generic message carrying the status code otherwise,
always with zero tokens; on every outcome other than HTTP 200 the token
count is zero. -/
theorem C8_generation_errors :
    generate_response .timeout = (timeoutMsg, 0, 0) ∧
    generate_response .connectionError = (connectionErrorMsg, 0, 0) ∧
    (∀ m : Str, generate_response (.otherError m) = (genericErrorMsg m, 0, 0)) ∧
    (∀ (code : ℕ) (content : Str) (evalCount : Option ℕ) (elapsed : ℕ), code ≠ 200 →
      (generate_response (.http code content evalCount elapsed)).1
          = (if code = 404 then modelNotFoundMsg else apiErrorMsg code) ∧
      (generate_response (.http code content evalCount elapsed)).2.1 = 0) ∧
    ∀ o : GenOutcome,
      (∀ (content : Str) (evalCount : Option ℕ) (elapsed : ℕ),
        o ≠ .http 200 content evalCount elapsed) →
      (generate_response o).2.1 = 0 := by
  refine ⟨rfl, rfl, fun m => rfl, ?_, ?_⟩
  · intro code content evalCount elapsed hcode
    constructor
    · by_cases h404 : code = 404 <;> simp [generate_response, hcode, h404]
    · by_cases h404 : code = 404 <;> simp [generate_response, hcode, h404]
  · intro o ho
    cases o with
    | http code content evalCount elapsed =>
      have hcode : code ≠ 200 := by
        intro h
        exact ho content evalCount elapsed (by rw [h])
      by_cases h404 : code = 404 <;> simp [generate_response, hcode, h404]
    | timeout => rfl
    | connectionError => rfl
    | otherError m => rfl

/-- Witness for C8: a concrete HTTP 500 response yields the generic API
error message and zero tokens. -/
theorem C8_generation_errors_witness :
    (500 : ℕ) ≠ 200 ∧
    (generate_response (.http 500 [] none 7)).1
        = (if (500 : ℕ) = 404 then modelNotFoundMsg else apiErrorMsg 500) ∧
    (generate_response (.http 500 [] none 7)).2.1 = 0 :=
  ⟨by decide, (C8_generation_errors.2.2.2.1 500 [] none 7 (by decide)).1,
   (C8_generation_errors.2.2.2.1 500 [] none 7 (by decide)).2⟩

/-- C10: the two terminal branches of `answer` that return before
generation — validation failure and empty retrieval — leave the
conversation history unchanged; and when generation is reached the
history becomes exactly the old history plus the (query, answer) pair,
windowed to the most recent `MAX_HISTORY_MESSAGES * 2` entries. -/
theorem C10_history_frame (bot : RAGBot) (q : PyVal) (store : Str → QueryResults)
    (gen : List Msg → GenOutcome) :
    (sanitize_input q = [] → (answer bot q store gen).bot = bot) ∧
    (sanitize_input q ≠ [] → (retrieve_documents (store (sanitize_input q))).1 = [] →
      (answer bot q store gen).bot = bot) ∧
    (sanitize_input q ≠ [] → (retrieve_documents (store (sanitize_input q))).1 ≠ [] →
      (answer bot q store gen).bot.history
        = lastN (MAX_HISTORY_MESSAGES * 2) (bot.history ++
            [Msg.mk "user".data (sanitize_input q),
             Msg.mk "assistant".data (generate_response (gen (build_messages bot
               (sanitize_input q) (retrieve_documents (store (sanitize_input q))).1))).1])) := by
  refine ⟨?_, ?_, ?_⟩
  · intro hq
    rw [answer_of_invalid bot q store gen hq]
  · intro hq hctx
    rw [answer_of_empty_context bot q store gen hq hctx]
  · intro hq hctx
    rw [answer_of_gen bot q store gen hq hctx]

/-- Witness for C10, exercising both the empty-retrieval branch (history
unchanged) and the generation branch (history extended) at concrete
inputs. -/
theorem C10_history_frame_witness :
    (sanitize_input (.pstr "El Jem".data) ≠ [] ∧
      (answer ⟨[]⟩ (.pstr "El Jem".data) (fun _ => ⟨[], [], none⟩)
          (fun _ => .timeout)).bot = (⟨[]⟩ : RAGBot)) ∧
    ((retrieve_documents ((fun _ : Str => (⟨["amphithéâtre romain".data],
          [⟨some "El Jem".data, none, none, none, none⟩], none⟩ : QueryResults))
            (sanitize_input (.pstr "El Jem".data)))).1 ≠ [] ∧
      (answer ⟨[]⟩ (.pstr "El Jem".data)
          (fun _ => ⟨["amphithéâtre romain".data],
            [⟨some "El Jem".data, none, none, none, none⟩], none⟩)
          (fun _ => .timeout)).bot.history
        = lastN (MAX_HISTORY_MESSAGES * 2) ((⟨[]⟩ : RAGBot).history ++
            [Msg.mk "user".data (sanitize_input (.pstr "El Jem".data)),
             Msg.mk "assistant".data (generate_response ((fun _ => .timeout)
               (build_messages ⟨[]⟩ (sanitize_input (.pstr "El Jem".data))
                 (retrieve_documents ((fun _ : Str => (⟨["amphithéâtre romain".data],
                   [⟨some "El Jem".data, none, none, none, none⟩], none⟩ : QueryResults))
                     (sanitize_input (.pstr "El Jem".data)))).1))).1])) :=
  ⟨⟨by decide,
    (C10_history_frame ⟨[]⟩ (.pstr "El Jem".data) (fun _ => ⟨[], [], none⟩)
        (fun _ => .timeout)).2.1 (by decide) (by decide)⟩,
   ⟨by decide,
    (C10_history_frame ⟨[]⟩ (.pstr "El Jem".data)
        (fun _ => ⟨["amphithéâtre romain".data],
          [⟨some "El Jem".data, none, none, none, none⟩], none⟩)
        (fun _ => .timeout)).2.2 (by decide) (by decide)⟩⟩

/-- Witness for C9 at a concrete input containing a long run of
whitespace and a NUL byte. -/
theorem C9_sanitize_shape_witness :
    (sanitize_input (.pstr "  El\x00  Jem ".data)).length ≤ MAX_INPUT_LENGTH ∧
    (∀ c ∈ sanitize_input (.pstr "  El\x00  Jem ".data), c ≠ '\x00') ∧
    List.Chain' (fun a c => ¬(pyIsSpace a = true ∧ pyIsSpace c = true))
      (sanitize_input (.pstr "  El\x00  Jem ".data)) ∧
    (∀ c ∈ sanitize_input (.pstr "  El\x00  Jem ".data), pyIsSpace c = true → c = ' ') :=
  C9_sanitize_shape "  El\x00  Jem ".data

end TunisiaChatbot
